import Mathlib

/-!
Verification of the Estonian archery results manager's data-normalization
pipeline. The TypeScript sources under `src/` are shallowly embedded here:
strings are modeled as `List Char` (`Str`), JavaScript's mutable module
state (the club store) is passed explicitly, and every function is a
direct transliteration of its TypeScript namesake. JavaScript-specific
primitives (`String.prototype.trim`, `split(/\s+/)`, `parseInt`, tag
stripping, `\b`-bounded regex replacement) are modeled on ASCII inputs,
which covers the data this program handles.
-/

namespace Archery

/-- Strings are modeled as lists of characters. -/
abbrev Str := List Char

/-- JavaScript `\w` word character: ASCII letter, digit or underscore. -/
def isWordChar (c : Char) : Bool := c.isAlpha || c.isDigit || c = '_'

/-- JavaScript `\s` whitespace (the forms that occur in CSV data). -/
def isSpaceChar (c : Char) : Bool :=
  c = ' ' || c = '\t' || c = '\n' || c = '\r' || c = '\x0b' || c = '\x0c'

/-- `String.prototype.toLowerCase` (ASCII case folding). -/
def toLowerStr (s : Str) : Str := s.map Char.toLower

/-- `String.prototype.toUpperCase` (ASCII case folding). -/
def toUpperStr (s : Str) : Str := s.map Char.toUpper

/-- `String.prototype.trim`: drop whitespace from both ends. -/
def jsTrim (s : Str) : Str :=
  ((s.dropWhile isSpaceChar).reverse.dropWhile isSpaceChar).reverse

/-- Split a string at every character satisfying `p`, keeping empty pieces
(the behaviour of JavaScript `split` with a one-character separator). -/
def splitOnPChar (p : Char → Bool) : Str → List Str
  | [] => [[]]
  | c :: rest =>
    let r := splitOnPChar p rest
    if p c then [] :: r
    else
      match r with
      | t :: ts => (c :: t) :: ts
      | [] => [[c]]

/-- Drop empty pieces that are neither first nor last, used to model
splitting on the run-regex `/\s+/` via single-character splitting. -/
def dropInteriorEmpties : List Str → List Str
  | [] => []
  | [x] => [x]
  | x :: rest => x :: dropInteriorEmptiesTail rest
where dropInteriorEmptiesTail : List Str → List Str
  | [] => []
  | [y] => [y]
  | y :: ys => if y = [] then dropInteriorEmptiesTail ys else y :: dropInteriorEmptiesTail ys

/-- JavaScript `split(/\s+/)`: split on maximal whitespace runs; a leading
or trailing run contributes an empty first or last piece. -/
def jsSplitWs (s : Str) : List Str := dropInteriorEmpties (splitOnPChar isSpaceChar s)

/-- JavaScript string `||`: the left operand unless it is empty (falsy). -/
def jsOr (a b : Str) : Str := if a = [] then b else a

-- ───────────────────────────────────────────────────────────────────────────
-- LEVENSHTEIN (src/src/utils/parsing.ts, `levenshtein`)
--
-- The source builds a DP table row by row: dp[0][j] = j, each later row i
-- starts with i, and cell (i, j) is dp[i-1][j-1] when a[j-1] = b[i-1] and
-- otherwise 1 + min(dp[i-1][j-1], dp[i-1][j], dp[i][j-1]).  `levRowAux`
-- computes the cells j = 1 .. |a| of one row from the previous row (`pr`
-- is the previous row from index j-1 on, `left` is the freshly computed
-- cell dp[i][j-1]); `levRows` iterates rows; both strings are lowercased
-- first, exactly as in the source.
-- ───────────────────────────────────────────────────────────────────────────

def levRowAux (bc : Char) : Str → List Nat → Nat → List Nat
  | [], _, _ => []
  | _ :: _, [], _ => []
  | ac :: as, d :: rest, left =>
    let u := rest.headD 0
    let cur := if ac = bc then d else 1 + min d (min u left)
    cur :: levRowAux bc as rest cur

def levRows (a : Str) : Str → Nat → List Nat → List Nat
  | [], _, prev => prev
  | bc :: bs, i, prev => levRows a bs (i + 1) (i :: levRowAux bc a prev i)

def levenshtein (a b : Str) : Nat :=
  let a2 := toLowerStr a
  let b2 := toLowerStr b
  (levRows a2 b2 1 (List.range (a2.length + 1))).getLastD 0

-- Reference recursion: `levP xs ys` is the edit distance between `xs` and
-- `ys` consuming characters from the front.  The DP table cell (i, j)
-- equals `levP` on the *reversed* length-j and length-i prefixes, which is
-- what the bridge lemmas below establish.

def levP : Str → Str → Nat
  | [], ys => ys.length
  | _ :: xs, [] => xs.length + 1
  | x :: xs, y :: ys =>
    if x = y then levP xs ys
    else 1 + min (levP xs ys) (min (levP xs (y :: ys)) (levP (x :: xs) ys))
termination_by xs ys => xs.length + ys.length

theorem levP_nil_right : ∀ xs : Str, levP xs [] = xs.length := by
  intro xs
  cases xs <;> simp [levP]

/-- Cells j = |raD|+1 .. |raD|+|as| of the DP row for the b-prefix whose
reversal is `rb`, where `raD` is the reversal of the already consumed
a-prefix. -/
def cells (raD rb : Str) : Str → List Nat
  | [] => []
  | ac :: as => levP (ac :: raD) rb :: cells (ac :: raD) rb as

theorem levRowAux_spec (bc : Char) :
    ∀ (as raD rb : Str),
      levRowAux bc as (levP raD rb :: cells raD rb as) (levP raD (bc :: rb))
        = cells raD (bc :: rb) as := by
  intro as
  induction as with
  | nil => intro raD rb; simp [levRowAux, cells]
  | cons ac as ih =>
    intro raD rb
    have hcur : (if ac = bc then levP raD rb
        else 1 + min (levP raD rb) (min (levP (ac :: raD) rb) (levP raD (bc :: rb))))
        = levP (ac :: raD) (bc :: rb) := by
      rw [levP]
      rcases Decidable.em (ac = bc) with h | h
      · simp [h]
      · simp only [if_neg h]
        rw [Nat.min_comm (levP raD (bc :: rb)) (levP (ac :: raD) rb)]
    simp only [cells, levRowAux, List.headD_cons]
    rw [hcur, ih (ac :: raD) rb]

theorem levRows_spec (a : Str) :
    ∀ (bs rb : Str),
      levRows a bs (rb.length + 1) (levP [] rb :: cells [] rb a)
        = levP [] (bs.reverse ++ rb) :: cells [] (bs.reverse ++ rb) a := by
  intro bs
  induction bs with
  | nil => intro rb; simp [levRows]
  | cons bc bs ih =>
    intro rb
    have hlen : rb.length + 1 = levP [] (bc :: rb) := by simp [levP]
    have hrow := levRowAux_spec bc a [] rb
    rw [← hlen] at hrow
    have h2 := ih (bc :: rb)
    simp only [List.length_cons] at h2
    rw [← hlen] at h2
    simp only [levRows, hrow]
    simp only [List.reverse_cons, List.append_assoc, List.singleton_append]
    exact h2

theorem cells_range (a : Str) :
    ∀ raD : Str, (raD.length :: cells raD [] a) = List.range' raD.length (a.length + 1) := by
  induction a with
  | nil => intro raD; simp [cells, List.range']
  | cons ac as ih =>
    intro raD
    have h1 : levP (ac :: raD) [] = raD.length + 1 := by
      rw [levP_nil_right]; simp
    have h2 := ih (ac :: raD)
    simp only [List.length_cons] at h2
    simp only [cells, h1, List.length_cons]
    rw [h2]
    exact (List.range'_succ ..).symm

theorem range_eq_cells (a : Str) :
    List.range (a.length + 1) = levP [] [] :: cells [] [] a := by
  have h := cells_range a []
  simp only [List.length_nil] at h
  rw [show levP ([] : Str) [] = 0 by simp [levP]]
  rw [List.range_eq_range', h]

theorem cells_getLast (rb : Str) :
    ∀ (as raD : Str),
      (levP raD rb :: cells raD rb as).getLastD 0 = levP (as.reverse ++ raD) rb := by
  intro as
  induction as with
  | nil => intro raD; simp [cells]
  | cons ac as ih =>
    intro raD
    have := ih (ac :: raD)
    simp only [cells, List.getLastD_cons] at this ⊢
    rw [this]
    simp [List.append_assoc]

/-- The imperative DP table computes `levP` on the reversed lowercased
strings. -/
theorem levenshtein_eq_levP (a b : Str) :
    levenshtein a b = levP (toLowerStr a).reverse (toLowerStr b).reverse := by
  show (levRows (toLowerStr a) (toLowerStr b) 1
      (List.range ((toLowerStr a).length + 1))).getLastD 0 = _
  rw [range_eq_cells (toLowerStr a)]
  rw [show (1 : Nat) = ([] : Str).length + 1 by simp]
  rw [levRows_spec (toLowerStr a) (toLowerStr b) []]
  simp only [List.append_nil]
  rw [cells_getLast]
  simp

theorem levP_self : ∀ xs : Str, levP xs xs = 0 := by
  intro xs
  induction xs with
  | nil => simp [levP]
  | cons x xs ih => simp [levP, ih]

theorem levP_comm : ∀ xs ys : Str, levP xs ys = levP ys xs := by
  intro xs
  induction xs with
  | nil =>
    intro ys
    cases ys <;> simp [levP]
  | cons x xs ih =>
    intro ys
    induction ys with
    | nil => simp [levP]
    | cons y ys ih2 =>
      rw [levP, levP]
      rcases Decidable.em (x = y) with h | h
      · simp [h, eq_comm, ih ys]
      · have h' : ¬ y = x := fun hyx => h hyx.symm
        simp only [if_neg h, if_neg h']
        rw [ih ys, ih (y :: ys), ih2]
        rw [Nat.min_comm (levP ys (x :: xs)) (levP (y :: ys) xs)]

-- ───────────────────────────────────────────────────────────────────────────
-- SCORE VALIDATION (src/src/utils/scoreValidation.ts)
-- ───────────────────────────────────────────────────────────────────────────

/-- `parseInt(digits, 10)` on a non-empty all-digit string. -/
def digitsToNat (ds : Str) : Nat := ds.foldl (fun n c => 10 * n + (c.toNat - '0'.toNat)) 0

/-- The anchored regex `^(\d+)\s*[xX×]\s*\d+m$`; on a match, returns the
leading multiplier parsed in base 10. -/
def matchMultiplier (t : Str) : Option Nat :=
  let p1 := t.span Char.isDigit
  if p1.1 = [] then none
  else
    match p1.2.dropWhile isSpaceChar with
    | c :: r3 =>
      if c = 'x' ∨ c = 'X' ∨ c = '×' then
        let p2 := (r3.dropWhile isSpaceChar).span Char.isDigit
        if p2.1 ≠ [] ∧ p2.2 = ['m'] then some (digitsToNat p1.1) else none
      else none
    | [] => none

/-- The anchored regex `^\d+m$`. -/
def matchSingle (t : Str) : Bool :=
  let p := t.span Char.isDigit
  !p.1.isEmpty && p.2 == ['m']

/-- Total of the `+`-joined segments: a `NxDm` segment contributes its
multiplier, a `Dm` segment contributes 1, anything else contributes 0. -/
def distPartsTotal (normalized : Str) : Nat :=
  (splitOnPChar (fun c => c = '+') normalized).foldl (fun tot part =>
    let tp := jsTrim part
    match matchMultiplier tp with
    | some n => tot + n
    | none => if matchSingle tp then tot + 1 else tot) 0

def parseDistanceCount (distance : Str) : Nat :=
  if distance = [] then 1
  else
    let normalized := toLowerStr (jsTrim distance)
    match matchMultiplier normalized with
    | some n => n
    | none =>
      if '+' ∈ normalized then
        let total := distPartsTotal normalized
        if 0 < total then total else 1
      else
        -- the source distinguishes the `^\d+m$` case from the fallback,
        -- but both return 1
        if matchSingle normalized then 1 else 1

def MAX_POINTS_PER_DISTANCE : Nat := 360

def getMaxScore (distance : Str) : Nat :=
  parseDistanceCount distance * MAX_POINTS_PER_DISTANCE

/-- Result of `validateScore`; the human-readable `error` message of the
source is display-only and not modeled. -/
structure ScoreValidationResult where
  valid : Bool
  maxScore : Option Int
deriving DecidableEq, Repr

def validateScore (score : Int) (distance : Str) : ScoreValidationResult :=
  if score < 0 then ⟨false, some (getMaxScore distance)⟩
  else
    let maxScore : Int := getMaxScore distance
    if maxScore < score then ⟨false, some maxScore⟩
    else ⟨true, some maxScore⟩

/-- A distance string none of `parseDistanceCount`'s recognizers accept:
no whole-string multiplier match and, if it contains `+`, no segment
contributes, otherwise no `^\d+m$` match either. -/
def distUnparseable (s : Str) : Bool :=
  let normalized := toLowerStr (jsTrim s)
  (matchMultiplier normalized).isNone &&
    (if '+' ∈ normalized then distPartsTotal normalized == 0 else !(matchSingle normalized))

/-- C7: `parseDistanceCount` returns 1 for "70m", 2 for "2x70m", 4 for
"90m+70m+50m+30m", 4 for "2x90m+2x70m" (a multiplier sub-segment
contributes its multiplier), and 1 for every empty or unparseable input;
being a total function it never throws. -/
theorem parseDistanceCount_table :
    parseDistanceCount ("70m".data) = 1
    ∧ parseDistanceCount ("2x70m".data) = 2
    ∧ parseDistanceCount ("90m+70m+50m+30m".data) = 4
    ∧ parseDistanceCount ("2x90m+2x70m".data) = 4
    ∧ parseDistanceCount [] = 1
    ∧ (∀ s : Str, distUnparseable s = true → parseDistanceCount s = 1) := by
  refine ⟨by decide, by decide, by decide, by decide, by decide, fun s h => ?_⟩
  unfold parseDistanceCount
  unfold distUnparseable at h
  simp only [Bool.and_eq_true, Option.isNone_iff_eq_none] at h
  rcases h with ⟨hmul, hrest⟩
  rcases Decidable.em (s = []) with hs | hs
  · simp [hs]
  · simp only [if_neg hs, hmul]
    rcases Decidable.em ('+' ∈ toLowerStr (jsTrim s)) with hp | hp
    · simp only [if_pos hp] at hrest ⊢
      have : distPartsTotal (toLowerStr (jsTrim s)) = 0 := by
        simpa using hrest
      simp [this]
    · simp only [if_neg hp]
      rcases Decidable.em (matchSingle (toLowerStr (jsTrim s)) = true) with hm | hm
      · simp [hm]
      · simp [hm]

/-- Witness for C7: the unparseable-input clause applied at "banana". -/
theorem parseDistanceCount_table_witness :
    distUnparseable ("banana".data) = true
    ∧ parseDistanceCount ("banana".data) = 1 :=
  ⟨by decide, parseDistanceCount_table.2.2.2.2.2 ("banana".data) (by decide)⟩

-- ───────────────────────────────────────────────────────────────────────────
-- NOISE-TERM STRIPPING (src/src/utils/parsing.ts, `STRIP_TERMS`,
-- `stripNoiseTerms`)
-- ───────────────────────────────────────────────────────────────────────────

def STRIP_TERMS : List Str :=
  ["vibuklubi".data, "vibukool".data, "vibu".data,
   "spordiklubi".data, "spordikool".data, "spordikeskus".data, "spordiühing".data,
   "sportklubi".data,
   "klubi".data, "kool".data, "ühing".data, "selts".data, "liit".data,
   "rahvaspordiklubi".data, "laskurvibuklubi".data,
   "sk".data]

def isWordOpt : Option Char → Bool
  | none => false
  | some c => isWordChar c

/-- Global replacement of the regex `\b<term>\b` (flags `gi`) by the empty
string: scan left to right; at a position whose surrounding characters form
a word boundary, where the term matches case-insensitively and whose end is
again a boundary, drop the match and continue after it, otherwise keep one
character.  `prev` is the character before the current position. -/
def replaceWB (t : Str) (prev : Option Char) (s : Str) : Str :=
  match s with
  | [] => []
  | c :: rest =>
    if h : t ≠ [] ∧ isWordOpt prev ≠ isWordChar c
        ∧ toLowerStr (List.take t.length (c :: rest)) = toLowerStr t
        ∧ isWordChar ((List.take t.length (c :: rest)).getLastD c)
            ≠ isWordOpt (List.drop t.length (c :: rest)).head?
    then replaceWB t (some ((List.take t.length (c :: rest)).getLastD c))
           (List.drop t.length (c :: rest))
    else c :: replaceWB t (some c) rest
termination_by s.length
decreasing_by
  · simp only [List.length_drop, List.length_cons]
    have ht : 0 < t.length := List.length_pos.mpr h.1
    omega
  · simp

/-- `replace(/\s+/g, ' ')`: collapse every maximal whitespace run to one
space (the single space is emitted at the run's last character). -/
def collapseSpaces : Str → Str
  | [] => []
  | c :: rest =>
    let r := collapseSpaces rest
    if isSpaceChar c then
      match rest with
      | c2 :: _ => if isSpaceChar c2 then r else ' ' :: r
      | [] => ' ' :: r
    else c :: r

def stripNoiseTerms (input : Str) : Str :=
  if input = [] then []
  else if input.length ≤ 5 then toLowerStr input
  else
    let result := STRIP_TERMS.foldl (fun result term =>
      let stripped := jsTrim (collapseSpaces (replaceWB term none result))
      if 2 < stripped.length then stripped else result) (toLowerStr input)
    jsTrim result

-- ───────────────────────────────────────────────────────────────────────────
-- CLUB MATCHING (src/src/utils/parsing.ts, `matchClub`;
-- src/src/constants/clubs.ts, `ESTONIAN_CLUBS`)
-- ───────────────────────────────────────────────────────────────────────────

structure Club where
  code : Str
  name : Str
  userAdded : Bool := false
deriving DecidableEq, Repr

def ESTONIAN_CLUBS : List Club :=
  [⟨"TLVK".data, "Tallinna Vibukool".data, false⟩,
   ⟨"VVVK".data, "Vana-Võidu Vibuklub".data, false⟩,
   ⟨"SAG".data, "Sagittarius".data, false⟩,
   ⟨"TVSK".data, "Tartu Valla Spordiklubi".data, false⟩,
   ⟨"JVI".data, "Järvakandi Ilves".data, false⟩,
   ⟨"PVM".data, "Pärnu Meelis".data, false⟩,
   ⟨"KSK".data, "Kajamaa Spordiklubi".data, false⟩,
   ⟨"SJK".data, "Suure-Jaani VK".data, false⟩,
   ⟨"STR".data, "STORM SK".data, false⟩,
   ⟨"MAG".data, "Mägilased".data, false⟩,
   ⟨"TYRI".data, "Türi Vibukool".data, false⟩,
   ⟨"BH".data, "Baltic Hunter SC".data, false⟩,
   ⟨"KVK".data, "Kagu Vibuklubi".data, false⟩,
   ⟨"LVL".data, "Lääne Vibulaskjad".data, false⟩,
   ⟨"VVK".data, "Vooremaa Vibuklubi".data, false⟩,
   ⟨"SVK".data, "Saarde Vibuklubi".data, false⟩,
   ⟨"TL".data, "TäheLend".data, false⟩,
   ⟨"NS".data, "NS Archery Club".data, false⟩,
   ⟨"JAK".data, "Järvamaa Amburite Klubi".data, false⟩,
   ⟨"SMA".data, "Saaremaa Vibuklubi".data, false⟩,
   ⟨"TVK".data, "Tartu Vibuklubi".data, false⟩]

structure ClubMatchResult where
  code : Str
  confidence : Int
  method : Str
deriving DecidableEq, Repr

/-- `Math.round(num / den)` for `den > 0`: floor of `num/den + 1/2`. -/
def jsRound (num den : Int) : Int := Int.fdiv (2 * num + den) (2 * den)

/-- The uppercased, trimmed first whitespace-delimited word of the trimmed
input (`trimmed.split(/\s+/)[0]?.toUpperCase().trim()`). -/
def firstWordOf (trimmed : Str) : Str := jsTrim (toUpperStr ((jsSplitWs trimmed).headD []))

/-- `matchClub` from the source, with the live club list (`getClubs()`)
passed explicitly. -/
def matchClub (clubs : List Club) (input : Str) : ClubMatchResult :=
  if input = [] then ⟨[], 0, "unknown".data⟩
  else
    let trimmed := jsTrim input
    let firstWord := firstWordOf trimmed
    let embedded :=
      if firstWord ≠ [] ∧ 2 ≤ firstWord.length ∧ firstWord.length ≤ 5 then
        clubs.find? (fun c => c.code == firstWord)
      else none
    match embedded with
    | some c => ⟨c.code, 100, "exact-code-embedded".data⟩
    | none =>
      match clubs.find? (fun c => toLowerStr c.code == toLowerStr trimmed) with
      | some c => ⟨c.code, 100, "exact-code".data⟩
      | none =>
        match clubs.find? (fun c => toLowerStr c.name == toLowerStr trimmed) with
        | some c => ⟨c.code, 100, "exact-name".data⟩
        | none =>
          let strippedInput := stripNoiseTerms trimmed
          let best := clubs.foldl (fun acc club =>
            let d := min (levenshtein strippedInput (stripNoiseTerms club.code))
                     (min (levenshtein strippedInput (stripNoiseTerms club.name))
                      (min (levenshtein trimmed club.code) (levenshtein trimmed club.name)))
            match acc with
            | none => some (club, d)
            | some bd => if d < bd.2 then some (club, d) else some bd) none
          match best with
          | some bd =>
            let maxLen : Int := max (strippedInput.length : Int) (max (bd.1.code.length : Int) 1)
            let confidence := max 0 (jsRound ((maxLen - (bd.2 : Int)) * 100) maxLen)
            ⟨bd.1.code, confidence,
              if strippedInput ≠ toLowerStr trimmed then "fuzzy-stripped".data
              else "fuzzy-raw".data⟩
          | none => ⟨trimmed, 0, "unknown".data⟩

theorem jsRound_le_100 (num den : Int) (hden : 0 < den) (hnum : num ≤ 100 * den) :
    jsRound num den ≤ 100 := by
  unfold jsRound
  have hb : (0 : Int) < 2 * den := by omega
  have hmod : 0 ≤ (2 * num + den).fmod (2 * den) := Int.fmod_nonneg' _ hb
  have hdecomp : 2 * den * ((2 * num + den).fdiv (2 * den)) + (2 * num + den).fmod (2 * den)
      = 2 * num + den := Int.fdiv_add_fmod _ _
  by_contra hq
  push_neg at hq
  have h101 : (101 : Int) ≤ (2 * num + den).fdiv (2 * den) := hq
  have h2 : 2 * den * 101 ≤ 2 * den * ((2 * num + den).fdiv (2 * den)) :=
    mul_le_mul_of_nonneg_left h101 (by omega)
  linarith

/-- C9: for every input string and every state of the club vocabulary, the
confidence returned by `matchClub` is between 0 and 100: the fuzzy-path
formula is floored at 0 and cannot exceed 100 since the minimum edit
distance is non-negative, and all other paths return exactly 100 or 0. -/
theorem matchClub_confidence_range (clubs : List Club) (input : Str) :
    0 ≤ (matchClub clubs input).confidence ∧ (matchClub clubs input).confidence ≤ 100 := by
  unfold matchClub
  split
  · exact ⟨by norm_num, by norm_num⟩
  · dsimp only
    split
    · exact ⟨by norm_num, by norm_num⟩
    · split
      · exact ⟨by norm_num, by norm_num⟩
      · split
        · exact ⟨by norm_num, by norm_num⟩
        · split
          · rename_i bd heq
            constructor
            · exact le_max_left 0 _
            · refine max_le (by norm_num) ?_
              have hd : (0 : Int) ≤ (bd.2 : Int) := Int.ofNat_nonneg _
              have hm1 : (1 : Int) ≤ max ((bd.1.code.length : Int)) 1 := le_max_right _ _
              have hm2 : max ((bd.1.code.length : Int)) 1
                  ≤ max ((stripNoiseTerms (jsTrim input)).length : Int)
                      (max ((bd.1.code.length : Int)) 1) := le_max_right _ _
              refine jsRound_le_100 _ _ (by linarith) (by nlinarith)
          · exact ⟨by norm_num, by norm_num⟩

/-- Boolean string-prefix test, used to state the short-code claims. -/
def isPrefixList : Str → Str → Bool
  | [], _ => true
  | _ :: _, [] => false
  | a :: as, b :: bs => a == b && isPrefixList as bs

/-- Counterexample to C3: "TLVK" has 2–5 characters and is a prefix of
exactly one known club code, yet `matchClub` returns method
"exact-code-embedded" with confidence 100, not method "short-code" with
confidence ~95 — no "short-code" stage exists in the source. -/
theorem matchClub_shortcode_counterexample :
    (ESTONIAN_CLUBS.filter (fun c => isPrefixList ("TLVK".data) c.code)).length = 1
    ∧ matchClub ESTONIAN_CLUBS ("TLVK".data)
        = ⟨"TLVK".data, 100, "exact-code-embedded".data⟩
    ∧ ("exact-code-embedded".data : Str) ≠ "short-code".data := by
  refine ⟨by decide, by decide, by decide⟩

/-- C3 amended: when the trimmed input's first whitespace-delimited word,
uppercased, has 2–5 characters and exactly equals a known club code,
`matchClub` returns that code with confidence 100 and method
"exact-code-embedded"; there is no prefix-matching stage, and no input
ever produces method "short-code".  Inputs whose first word matches no
code fall through to the exact and fuzzy stages. -/
theorem matchClub_embedded_code :
    (∀ (clubs : List Club) (input : Str) (c : Club),
      input ≠ [] →
      2 ≤ (firstWordOf (jsTrim input)).length →
      (firstWordOf (jsTrim input)).length ≤ 5 →
      clubs.find? (fun x => x.code == firstWordOf (jsTrim input)) = some c →
      matchClub clubs input = ⟨c.code, 100, "exact-code-embedded".data⟩)
    ∧ (∀ (clubs : List Club) (input : Str),
      (matchClub clubs input).method ≠ ("short-code".data : Str)) := by
  constructor
  · intro clubs input c hne h2 h5 hfind
    unfold matchClub
    rw [if_neg hne]
    dsimp only
    have hfw : firstWordOf (jsTrim input) ≠ [] := by
      intro heq
      rw [heq] at h2
      simp at h2
    rw [if_pos ⟨hfw, h2, h5⟩, hfind]
  · intro clubs input
    unfold matchClub
    split
    · simp
    · dsimp only
      split
      · simp
      · split
        · simp
        · split
          · simp
          · split
            · dsimp only
              split
              · simp
              · simp
            · simp

/-- Witness for the C3 amended theorem: applied at input "TLVK" over the
built-in vocabulary. -/
theorem matchClub_embedded_code_witness :
    matchClub ESTONIAN_CLUBS ("TLVK".data)
      = ⟨"TLVK".data, 100, "exact-code-embedded".data⟩ :=
  matchClub_embedded_code.1 ESTONIAN_CLUBS ("TLVK".data)
    ⟨"TLVK".data, "Tallinna Vibukool".data, false⟩
    (by decide) (by decide) (by decide) (by decide)

-- ───────────────────────────────────────────────────────────────────────────
-- PARSING HELPERS (src/src/utils/parsing.ts; src/src/constants/clubs.ts)
-- ───────────────────────────────────────────────────────────────────────────

/-- State machine for `replace(/<[^>]*>/g, '')`: `pending` holds (reversed)
the characters since the last unclosed `<`; a `>` discards them, the end of
input flushes them (an unclosed `<` never matches the regex). -/
def stripTagsGo : Option Str → Str → Str
  | none, [] => []
  | some p, [] => p.reverse
  | none, c :: rest => if c = '<' then stripTagsGo (some [c]) rest else c :: stripTagsGo none rest
  | some p, c :: rest => if c = '>' then stripTagsGo none rest else stripTagsGo (some (c :: p)) rest

def stripTags (s : Str) : Str := stripTagsGo none s

/-- `sanitize`: strip HTML-like tags, then trim.  The source's `v == null`
guard is vacuous here since the row model always yields strings. -/
def sanitize (v : Str) : Str := jsTrim (stripTags v)

/-- Boolean substring test (regex `/pat/.test(s)` for a literal pattern). -/
def hasSub : Str → Str → Bool
  | [], needle => needle.isEmpty
  | c :: rest, needle => isPrefixList needle (c :: rest) || hasSub rest needle

def BOW_TRANSLATIONS : List (Str × Str) :=
  [("sportvibu".data, "Recurve".data),
   ("plokkvibu".data, "Compound".data),
   ("vaistuvibu".data, "Barebow".data),
   ("pikkvibu".data, "Longbow".data),
   ("recurve".data, "Recurve".data),
   ("compound".data, "Compound".data),
   ("barebow".data, "Barebow".data),
   ("longbow".data, "Longbow".data)]

def translateBowType (raw : Str) : Str :=
  if raw = [] then "Recurve".data
  else
    match List.lookup (toLowerStr ((jsSplitWs (jsTrim raw)).headD [])) BOW_TRANSLATIONS with
    | some b => b
    | none => "Recurve".data

/-- `extractAgeClass`: the combined uppercased "age field + class field"
string is tested against the fixed patterns U21, U18, U15, U13, then
+60/+70 (normalised to +60 — the source comment reads "Normalize +70 to
+60"), then +50; anything else is "Adult". -/
def extractAgeClass (ageField classField : Str) : Str :=
  let combined := toUpperStr (ageField ++ (" ".data) ++ classField)
  if hasSub combined ("U21".data) then "U21".data
  else if hasSub combined ("U18".data) then "U18".data
  else if hasSub combined ("U15".data) then "U15".data
  else if hasSub combined ("U13".data) then "U13".data
  else if hasSub combined ("+60".data) || hasSub combined ("+70".data) then "+60".data
  else if hasSub combined ("+50".data) then "+50".data
  else "Adult".data

/-- `extractGender`: `/naised|women/i.test(classField)` decides Women,
anything else is Men. -/
def extractGender (classField : Str) : Str :=
  if hasSub (toLowerStr classField) ("naised".data)
      || hasSub (toLowerStr classField) ("women".data)
  then "Women".data else "Men".data

/-- The capture of `^2\s*[xX]\s*(\d+)` (not anchored at the end). -/
def match2x (t : Str) : Option Str :=
  match t with
  | '2' :: r1 =>
    (match r1.dropWhile isSpaceChar with
     | c :: r3 =>
       if c = 'x' ∨ c = 'X' then
         let ds := ((r3.dropWhile isSpaceChar).span Char.isDigit).1
         if ds ≠ [] then some ds else none
       else none
     | [] => none)
  | _ => none

def normalizeDistance (d : Str) : Str :=
  if d = [] then []
  else
    let t := jsTrim d
    if t ≠ [] ∧ t.all Char.isDigit then t ++ ("m".data)
    else if (!(t.span Char.isDigit).1.isEmpty
        && ((t.span Char.isDigit).2 == ['m'] || (t.span Char.isDigit).2 == ['M'])) then
      toLowerStr t
    else
      match match2x t with
      | some ds => ("2x".data) ++ ds ++ ("m".data)
      | none => t

/-- Hexadecimal digit value, for `parseInt`'s `0x` prefix. -/
def hexDigitVal (c : Char) : Option Nat :=
  if c.isDigit then some (c.toNat - '0'.toNat)
  else if 'a' ≤ c ∧ c ≤ 'f' then some (c.toNat - 'a'.toNat + 10)
  else if 'A' ≤ c ∧ c ≤ 'F' then some (c.toNat - 'A'.toNat + 10)
  else none

/-- JavaScript `parseInt(s)`: skip leading whitespace, optional sign, an
optional `0x`/`0X` prefix switching to base 16, then the longest digit
prefix; `none` models NaN. -/
def parseIntJS (s : Str) : Option Int :=
  let t := s.dropWhile isSpaceChar
  let core : Bool × Str :=
    match t with
    | '-' :: r => (true, r)
    | '+' :: r => (false, r)
    | _ => (false, t)
  let mag : Option Nat :=
    match core.2 with
    | '0' :: c :: r =>
      if c = 'x' ∨ c = 'X' then
        let hs := r.takeWhile (fun c => (hexDigitVal c).isSome)
        if hs = [] then none
        else some (hs.foldl (fun n c => 16 * n + (hexDigitVal c).getD 0) 0)
      else
        let ds := core.2.takeWhile Char.isDigit
        if ds = [] then none else some (digitsToNat ds)
    | _ =>
      let ds := core.2.takeWhile Char.isDigit
      if ds = [] then none else some (digitsToNat ds)
  match mag with
  | none => none
  | some m => some (if core.1 then -(m : Int) else (m : Int))

/-- `parseInt(s) || 0`: NaN (and 0 itself) fall back to 0. -/
def parseIntJSOr0 (s : Str) : Int := (parseIntJS s).getD 0

/-- Number-to-string conversion used by template literals. -/
def intToStr (n : Int) : Str :=
  if n < 0 then '-' :: Nat.toDigits 10 n.natAbs else Nat.toDigits 10 n.toNat

def ESTONIAN_HEADERS : List (Str × Str) :=
  [("Kuupäev".data, "Date".data),
   ("Sportlane".data, "Athlete".data),
   ("Nimi".data, "Athlete".data),
   ("Sportlase nimi".data, "Athlete".data),
   ("Võistleja".data, "Athlete".data),
   ("Võistlus".data, "Competition".data),
   ("Klubi".data, "Club".data),
   ("Võistlusklass".data, "Class".data),
   ("Vanuserühm".data, "AgeClass".data),
   ("Distants".data, "Distance".data),
   ("Tulemus".data, "Result".data),
   ("Vanuseklass".data, "AgeClass".data),
   ("Sugu".data, "Gender".data)]

/-- JavaScript object property assignment on a key-ordered association
list: overwrite in place if the key exists, else append. -/
def setAssoc : List (Str × Str) → Str → Str → List (Str × Str)
  | [], k, v => [(k, v)]
  | (k0, v0) :: rest, k, v =>
    if k0 = k then (k0, v) :: rest else (k0, v0) :: setAssoc rest k v

/-- `mapHeaders`: rename every key through `ESTONIAN_HEADERS` (unmapped
keys pass through), later duplicates overwriting earlier ones. -/
def mapHeaders (row : List (Str × Str)) : List (Str × Str) :=
  row.foldl (fun mapped kv =>
    setAssoc mapped ((List.lookup kv.1 ESTONIAN_HEADERS).getD kv.1) kv.2) []

/-- `row['K']` with JavaScript's undefined coalescing to `''`. -/
def jsGet (m : List (Str × Str)) (k : Str) : Str := (List.lookup k m).getD []

-- Field extraction helpers, one per `let` binding of the parseCSVText row
-- callback; each takes the header-mapped row.

def dateField (row : List (Str × Str)) : Str :=
  sanitize (jsOr (jsGet row ("Date".data)) (jsOr (jsGet row ("date".data))
    (jsOr (jsGet row ("DATE".data)) (jsOr (jsGet row ("Kuupäev".data))
    (jsOr (jsGet row ("kuupäev".data)) (jsOr (jsGet row ("Aeg".data)) []))))))

def firstNameField (row : List (Str × Str)) : Str :=
  sanitize (jsOr (jsGet row ("FirstName".data)) (jsOr (jsGet row ("Eesnimi".data))
    (jsOr (jsGet row ("eesnimi".data)) (jsOr (jsGet row ("First Name".data))
    (jsOr (jsGet row ("first name".data)) [])))))

def familyNameField (row : List (Str × Str)) : Str :=
  sanitize (jsOr (jsGet row ("FamilyName".data)) (jsOr (jsGet row ("Perekonnanimi".data))
    (jsOr (jsGet row ("perekonnanimi".data)) (jsOr (jsGet row ("Family Name".data))
    (jsOr (jsGet row ("family name".data)) (jsOr (jsGet row ("Last Name".data))
    (jsOr (jsGet row ("last name".data)) [])))))))

def athleteField (row : List (Str × Str)) : Str :=
  if firstNameField row ≠ [] ∧ familyNameField row ≠ [] then
    jsTrim (firstNameField row ++ (" ".data) ++ familyNameField row)
  else
    sanitize (jsOr (jsGet row ("Athlete".data)) (jsOr (jsGet row ("athlete".data))
      (jsOr (jsGet row ("ATHLETE".data)) (jsOr (jsGet row ("Sportlane".data))
      (jsOr (jsGet row ("sportlane".data)) (jsOr (jsGet row ("Nimi".data))
      (jsOr (jsGet row ("Name".data)) (jsOr (jsGet row ("name".data))
      (jsOr (firstNameField row) (jsOr (familyNameField row) []))))))))))

def clubField (row : List (Str × Str)) : Str :=
  sanitize (jsOr (jsGet row ("Club".data)) (jsOr (jsGet row ("Klubi".data))
    (jsOr (jsGet row ("klubi".data)) [])))

def bowClassField (row : List (Str × Str)) : Str :=
  sanitize (jsOr (jsGet row ("Class".data)) (jsOr (jsGet row ("Bow Type".data))
    (jsOr (jsGet row ("Vibu".data)) [])))

def ageRawField (row : List (Str × Str)) : Str :=
  sanitize (jsOr (jsGet row ("AgeClass".data)) (jsOr (jsGet row ("Age Class".data))
    (jsOr (jsGet row ("Vanuserühm".data)) [])))

def distRawField (row : List (Str × Str)) : Str :=
  sanitize (jsOr (jsGet row ("Distance".data)) (jsOr (jsGet row ("Shooting Exercise".data))
    (jsOr (jsGet row ("Distants".data)) [])))

def resultField (row : List (Str × Str)) : Int :=
  parseIntJSOr0 (sanitize (jsOr (jsGet row ("Result".data)) (jsOr (jsGet row ("Tulemus".data))
    (jsOr (jsGet row ("Points".data)) ("0".data)))))

def competitionField (row : List (Str × Str)) : Str :=
  sanitize (jsOr (jsGet row ("Competition".data)) (jsOr (jsGet row ("Võistlus".data))
    (jsOr (jsGet row ("competition".data)) [])))

structure Correction where
  field : Str
  original : Str
  corrected : Str
  method : Str
  confidence : Int
  timestamp : Nat
deriving DecidableEq, Repr

structure CompetitionRecord where
  id : Nat
  date : Str
  athlete : Str
  club : Str
  bowType : Str
  ageClass : Str
  gender : Str
  shootingExercise : Str
  result : Int
  competition : Str
  sourceFile : Str
  corrections : List Correction
  needsReview : Bool
  confidence : Int
  originalData : List (Str × Str)
deriving DecidableEq, Repr

/-- JavaScript truthiness of `scoreValidation.maxScore`. -/
def optIntTruthy : Option Int → Bool
  | none => false
  | some n => n != 0

/-- The row callback of `parseCSVText` (`data.map((rawRow, i) => …)`),
with the live club list and the per-batch `Date.now()` timestamp passed
explicitly. -/
def parseRow (clubs : List Club) (sourceFile : Str) (ts : Nat) (i : Nat)
    (rawRow : List (Str × Str)) : CompetitionRecord :=
  let row := mapHeaders rawRow
  let clubRaw := clubField row
  let bowClass := bowClassField row
  let normalizedDist := normalizeDistance (distRawField row)
  let result := resultField row
  let clubMatch := matchClub clubs clubRaw
  let bowType := translateBowType bowClass
  let scoreValidation := validateScore result normalizedDist
  let invalidScore := scoreValidation.valid = false ∧ optIntTruthy scoreValidation.maxScore
  let needsReview := if invalidScore then true else decide (clubMatch.confidence < 90)
  let resultCorrections : List Correction :=
    if invalidScore then
      match scoreValidation.maxScore with
      | some m =>
        [⟨"Result".data, intToStr result, ("Max ".data) ++ intToStr m, "extraction".data, 0, ts⟩]
      | none => []
    else []
  let clubCorrections : List Correction :=
    if clubRaw ≠ [] ∧ clubMatch.confidence < 100 then
      [⟨"Club".data, clubRaw, clubMatch.code, "fuzzy".data, clubMatch.confidence, ts⟩]
    else []
  let rawBow := (jsSplitWs bowClass).headD []
  let bowCorrections : List Correction :=
    if rawBow ≠ [] ∧ toLowerStr rawBow ≠ toLowerStr bowType then
      [⟨"Bow Type".data, rawBow, bowType, "translation".data, 100, ts⟩]
    else []
  { id := i + 1, date := dateField row, athlete := athleteField row, club := clubMatch.code,
    bowType := bowType, ageClass := extractAgeClass (ageRawField row) bowClass,
    gender := extractGender bowClass, shootingExercise := normalizedDist,
    result := result, competition := competitionField row, sourceFile := sourceFile,
    corrections := resultCorrections ++ clubCorrections ++ bowCorrections,
    needsReview := needsReview, confidence := clubMatch.confidence,
    originalData := rawRow }

/-- `parseCSVText` over already-tokenized rows (the Papa.parse CSV reader
is the external collaborator the specification assumes). -/
def parseCSVText (clubs : List Club) (rows : List (List (Str × Str)))
    (sourceFile : Str) (ts : Nat) : List CompetitionRecord :=
  rows.enum.map (fun p => parseRow clubs sourceFile ts p.1 p.2)

/-- Counterexample to C1: the extractor does not return the first
`U<digits>`/`+<digits>` match verbatim — "+70" yields "+60" (normalised),
"U14" yields "Adult" (only U21/U18/U15/U13 are recognised), and
"+50 U21" yields "U21" although "+50" occurs first. -/
theorem extractAgeClass_counterexample :
    extractAgeClass [] ("+70".data) = "+60".data
    ∧ extractAgeClass ("U14".data) [] = "Adult".data
    ∧ extractAgeClass ("+50 U21".data) [] = "U21".data := by
  refine ⟨by decide, by decide, by decide⟩

/-- C1 amended wording: the combined uppercased age+class string is tested
against the fixed pattern list U21, U18, U15, U13, +60/+70, +50 in that
priority order; +70 is normalised to +60; unlisted patterns and
pattern-free inputs give "Adult". -/
def ageClassSpec (combined : Str) : Str :=
  if hasSub combined ("U21".data) then "U21".data
  else if hasSub combined ("U18".data) then "U18".data
  else if hasSub combined ("U15".data) then "U15".data
  else if hasSub combined ("U13".data) then "U13".data
  else if hasSub combined ("+60".data) || hasSub combined ("+70".data) then "+60".data
  else if hasSub combined ("+50".data) then "+50".data
  else "Adult".data

/-- C1 amended: the age-class extractor realises `ageClassSpec` on the
combined uppercased field, never returns "+70", and only ever returns one
of the seven values Adult, U21, U18, U15, U13, +60, +50. -/
theorem extractAgeClass_amended :
    (∀ age cls : Str,
      extractAgeClass age cls = ageClassSpec (toUpperStr (age ++ (" ".data) ++ cls)))
    ∧ (∀ age cls : Str,
      extractAgeClass age cls ≠ "+70".data
      ∧ extractAgeClass age cls ∈ ["Adult".data, "U21".data, "U18".data,
          "U15".data, "U13".data, "+60".data, "+50".data]) := by
  constructor
  · intro age cls; rfl
  · intro age cls
    unfold extractAgeClass
    dsimp only
    split_ifs <;> exact ⟨by decide, by decide⟩

/-- Raw row used for the C4 counterexample: an explicit Estonian gender
column (`Sugu`, mapped to `Gender`) saying "women". -/
def genderRow : List (Str × Str) :=
  [("Sugu".data, "women".data),
   ("Võistlusklass".data, "Sportvibu mehed".data),
   ("Klubi".data, "TLVK".data)]

/-- Counterexample to C4: the row carries an explicit gender field with
value "women" (visible in the mapped row under `Gender`), yet the parsed
record's gender is "Men" — the gender column is never consulted. -/
theorem parseRow_gender_counterexample :
    jsGet (mapHeaders genderRow) ("Gender".data) = "women".data
    ∧ (parseRow ESTONIAN_CLUBS [] 0 0 genderRow).gender = "Men".data := by
  refine ⟨by decide, by decide⟩

/-- C4 amended: the record's gender is always `extractGender` of the
class-description field (the `Class`/`Bow Type`/`Vibu` chain); gender is
"Women" exactly when that field contains "naised" or "women"
case-insensitively, and "Men" otherwise.  Explicit gender columns are
header-mapped but ignored. -/
theorem parseRow_gender_amended :
    (∀ (clubs : List Club) (sf : Str) (ts i : Nat) (rawRow : List (Str × Str)),
      (parseRow clubs sf ts i rawRow).gender
        = extractGender (bowClassField (mapHeaders rawRow)))
    ∧ (∀ c : Str,
      (extractGender c = "Women".data
        ↔ (hasSub (toLowerStr c) ("naised".data)
            || hasSub (toLowerStr c) ("women".data)) = true)
      ∧ (extractGender c = "Women".data ∨ extractGender c = "Men".data)) := by
  constructor
  · intro clubs sf ts i rawRow; rfl
  · intro c
    unfold extractGender
    split_ifs with h
    · exact ⟨⟨fun _ => h, fun _ => rfl⟩, Or.inl rfl⟩
    · exact ⟨⟨fun hw => absurd hw (by decide), fun hc => absurd hc h⟩, Or.inr rfl⟩

/-- C2 rows: distance "70m" with result 800 (over the 360 maximum), and
distance "2x70m" with result 700 (within the 720 maximum). -/
def overMaxRow : List (Str × Str) :=
  [("Klubi".data, "TLVK".data), ("Distants".data, "70m".data), ("Tulemus".data, "800".data)]

def withinMaxRow : List (Str × Str) :=
  [("Klubi".data, "TLVK".data), ("Distants".data, "2x70m".data), ("Tulemus".data, "700".data)]

/-- C2, evaluated at the failing input: the over-maximum row does get a
Result correction with confidence 0 and the needs-review flag set, but its
method tag is "extraction", not the "validation" the claim (and the
import-summary/review UI, which filter on `method === 'validation'`)
expect; the within-maximum row gets no correction and its needs-review
flag equals the club-confidence test (100 < 90 = false). -/
theorem parseRow_result_validation :
    ((parseRow ESTONIAN_CLUBS [] 0 0 overMaxRow).corrections
        = [⟨"Result".data, "800".data, "Max 360".data, "extraction".data, 0, 0⟩]
      ∧ (parseRow ESTONIAN_CLUBS [] 0 0 overMaxRow).needsReview = true
      ∧ ("extraction".data : Str) ≠ "validation".data)
    ∧ ((parseRow ESTONIAN_CLUBS [] 0 0 withinMaxRow).corrections = []
      ∧ (parseRow ESTONIAN_CLUBS [] 0 0 withinMaxRow).needsReview = false
      ∧ (matchClub ESTONIAN_CLUBS ("TLVK".data)).confidence = 100) := by
  refine ⟨⟨by decide, by decide, by decide⟩, ⟨by decide, by decide, by decide⟩⟩

-- ───────────────────────────────────────────────────────────────────────────
-- CLUB STORE (src/src/utils/clubStore.ts)
--
-- The module-level mutable list `_clubs` is passed in explicitly; the
-- result records the returned boolean, the list afterwards, what (if
-- anything) was handed to `saveToStorage`, and whether `notify` ran.
-- ───────────────────────────────────────────────────────────────────────────

structure ClubStoreResult where
  result : Bool
  clubs : List Club
  saved : Option (List Club)
  notified : Bool
deriving DecidableEq, Repr

def addClub (clubs : List Club) (code name : Str) : ClubStoreResult :=
  let trimCode := toUpperStr (jsTrim code)
  let trimName := jsTrim name
  if trimCode = [] ∨ trimName = [] then ⟨false, clubs, none, false⟩
  else if clubs.any (fun c => c.code == trimCode) then ⟨false, clubs, none, false⟩
  else
    let newClubs := clubs ++ [⟨trimCode, trimName, true⟩]
    ⟨true, newClubs, some newClubs, true⟩

def removeClub (clubs : List Club) (code : Str) : ClubStoreResult :=
  match clubs.find? (fun c => c.code == code) with
  | none => ⟨false, clubs, none, false⟩
  | some club =>
    if club.userAdded = false then ⟨false, clubs, none, false⟩
    else
      let newClubs := clubs.filter (fun c => !(c.code == code))
      ⟨true, newClubs, some newClubs, true⟩

/-- C10: whenever `addClub` or `removeClub` returns false, the stored club
list is unchanged, nothing is handed to storage, and no subscriber
notification fires; `addClub` fails exactly on an empty trimmed code, an
empty trimmed name, or an already-present code, and `removeClub` fails
exactly on a code that is absent or belongs to a non-user-added
(built-in) entry. -/
theorem clubStore_failure_no_mutation :
    (∀ (clubs : List Club) (code name : Str),
      (addClub clubs code name).result = false →
        (addClub clubs code name).clubs = clubs
        ∧ (addClub clubs code name).saved = none
        ∧ (addClub clubs code name).notified = false)
    ∧ (∀ (clubs : List Club) (code name : Str),
      (addClub clubs code name).result = false
        ↔ (toUpperStr (jsTrim code) = [] ∨ jsTrim name = []
            ∨ clubs.any (fun c => c.code == toUpperStr (jsTrim code)) = true))
    ∧ (∀ (clubs : List Club) (code : Str),
      (removeClub clubs code).result = false →
        (removeClub clubs code).clubs = clubs
        ∧ (removeClub clubs code).saved = none
        ∧ (removeClub clubs code).notified = false)
    ∧ (∀ (clubs : List Club) (code : Str),
      (removeClub clubs code).result = false
        ↔ (clubs.find? (fun c => c.code == code) = none
            ∨ ∃ club, clubs.find? (fun c => c.code == code) = some club
                ∧ club.userAdded = false)) := by
  refine ⟨fun clubs code name h => ?_, fun clubs code name => ?_,
    fun clubs code h => ?_, fun clubs code => ?_⟩
  · unfold addClub at h ⊢
    dsimp only at h ⊢
    split_ifs at h ⊢ with h1 h2
    · exact ⟨rfl, rfl, rfl⟩
    · exact ⟨rfl, rfl, rfl⟩
  · unfold addClub
    dsimp only
    split_ifs with h1 h2
    · exact ⟨fun _ => by tauto, fun _ => rfl⟩
    · exact ⟨fun _ => Or.inr (Or.inr h2), fun _ => rfl⟩
    · push_neg at h1
      constructor
      · intro h
        simp at h
      · intro hor
        rcases hor with hc | hn | ha
        · exact absurd hc h1.1
        · exact absurd hn h1.2
        · exact absurd ha h2
  · unfold removeClub at h ⊢
    rcases hf : clubs.find? (fun c => c.code == code) with _ | club
    · rw [hf]
      exact ⟨rfl, rfl, rfl⟩
    · rw [hf] at h ⊢
      dsimp only at h ⊢
      split_ifs at h ⊢ with h1
      · exact ⟨rfl, rfl, rfl⟩
  · unfold removeClub
    rcases hf : clubs.find? (fun c => c.code == code) with _ | club
    · rw [hf]
      simp
    · rw [hf]
      dsimp only
      split_ifs with h1
      · exact ⟨fun _ => Or.inr ⟨club, rfl, h1⟩, fun _ => rfl⟩
      · constructor
        · intro h
          simp at h
        · intro hor
          rcases hor with hn | ⟨club2, h2, h3⟩
          · exact hn.elim
          · injection h2 with h4
            subst h4
            exact absurd h3 h1

-- ───────────────────────────────────────────────────────────────────────────
-- AGE-CLASS AUTO-RESOLUTION (src/src/components/review/ReviewModule.tsx,
-- `SENIOR_RANK`, `YOUTH_RANK`, `resolveAgeClass`)
-- ───────────────────────────────────────────────────────────────────────────

def SENIOR_RANK : List (Str × Nat) :=
  [("+50".data, 1), ("+60".data, 2), ("+70".data, 3)]

def YOUTH_RANK : List (Str × Nat) :=
  [("U21".data, 1), ("U18".data, 2), ("U15".data, 3), ("U13".data, 4)]

/-- JavaScript `ac in RANK`. -/
def rankIn (m : List (Str × Nat)) (k : Str) : Bool := (List.lookup k m).isSome

/-- JavaScript `RANK[ac]` on a present key (absent keys are never read on
the paths the source takes). -/
def rankOf (m : List (Str × Nat)) (k : Str) : Nat := (List.lookup k m).getD 0

/-- `[...new Set(l)]`: deduplicate keeping first occurrences. -/
def uniqueFirst (l : List Str) : List Str :=
  l.foldl (fun acc v => if v ∈ acc then acc else acc ++ [v]) []

/-- Stable insertion step for `Array.prototype.sort` with comparator
`(a, b) => r(b) - r(a)` (descending by rank, ties keeping order). -/
def insertDescBy (r : Str → Nat) (x : Str) : List Str → List Str
  | [] => [x]
  | y :: ys => if r y < r x then x :: y :: ys else y :: insertDescBy r x ys

def sortDescBy (r : Str → Nat) : List Str → List Str
  | [] => []
  | x :: xs => insertDescBy r x (sortDescBy r xs)

/-- `resolveAgeClass`: collapse a group's age-class values to one value
when they are a pure senior-ladder or pure youth-ladder conflict. -/
def resolveAgeClass (ageClasses : List Str) : Option Str :=
  let unique := uniqueFirst ageClasses
  if unique.length ≤ 1 then none
  else
    let seniors := unique.filter (rankIn SENIOR_RANK)
    let youths := unique.filter (rankIn YOUTH_RANK)
    if 0 < seniors.length ∧ youths.length = 0 then
      some ((sortDescBy (rankOf SENIOR_RANK) seniors).headD [])
    else if 0 < youths.length ∧ seniors.length = 0 then
      some ((sortDescBy (rankOf YOUTH_RANK) youths).headD [])
    else none

theorem mem_foldl_uniqueFirst (l : List Str) :
    ∀ (acc : List Str) (x : Str),
      (x ∈ l.foldl (fun acc v => if v ∈ acc then acc else acc ++ [v]) acc
        ↔ x ∈ acc ∨ x ∈ l) := by
  induction l with
  | nil => intro acc x; simp
  | cons v rest ih =>
    intro acc x
    simp only [List.foldl_cons]
    rw [ih]
    constructor
    · intro h
      rcases h with h | h
      · rcases Decidable.em (v ∈ acc) with hv | hv
        · rw [if_pos hv] at h
          exact Or.inl h
        · rw [if_neg hv] at h
          rcases List.mem_append.mp h with h2 | h2
          · exact Or.inl h2
          · simp at h2
            exact Or.inr (by simp [h2])
      · exact Or.inr (List.mem_cons_of_mem v h)
    · intro h
      rcases h with h | h
      · left
        rcases Decidable.em (v ∈ acc) with hv | hv
        · rwa [if_pos hv]
        · rw [if_neg hv]
          exact List.mem_append.mpr (Or.inl h)
      · rcases List.mem_cons.mp h with h2 | h2
        · left
          subst h2
          rcases Decidable.em (x ∈ acc) with hv | hv
          · rwa [if_pos hv]
          · rw [if_neg hv]
            simp
        · exact Or.inr h2

theorem mem_uniqueFirst (l : List Str) (x : Str) : x ∈ uniqueFirst l ↔ x ∈ l := by
  unfold uniqueFirst
  rw [mem_foldl_uniqueFirst]
  simp

theorem mem_insertDescBy (r : Str → Nat) (x z : Str) :
    ∀ ys : List Str, (z ∈ insertDescBy r x ys ↔ z = x ∨ z ∈ ys) := by
  intro ys
  induction ys with
  | nil => simp [insertDescBy]
  | cons y ys ih =>
    simp only [insertDescBy]
    split_ifs
    · simp
    · simp only [List.mem_cons, ih]
      tauto

theorem insertDescBy_ne_nil (r : Str → Nat) (x : Str) (ys : List Str) :
    insertDescBy r x ys ≠ [] := by
  cases ys with
  | nil => simp [insertDescBy]
  | cons y ys =>
    simp only [insertDescBy]
    split_ifs <;> simp

theorem sortDescBy_ne_nil (r : Str → Nat) (x : Str) (xs : List Str) :
    sortDescBy r (x :: xs) ≠ [] := by
  simp only [sortDescBy]
  exact insertDescBy_ne_nil r x (sortDescBy r xs)

theorem mem_sortDescBy (r : Str → Nat) (z : Str) :
    ∀ xs : List Str, (z ∈ sortDescBy r xs ↔ z ∈ xs) := by
  intro xs
  induction xs with
  | nil => simp [sortDescBy]
  | cons x xs ih =>
    simp only [sortDescBy, mem_insertDescBy, List.mem_cons, ih]

/-- The head of the descending sort belongs to the list and dominates it
in rank. -/
theorem sortDescBy_headD (r : Str → Nat) :
    ∀ xs : List Str, xs ≠ [] →
      (sortDescBy r xs).headD [] ∈ xs
      ∧ ∀ x ∈ xs, r x ≤ r ((sortDescBy r xs).headD []) := by
  intro xs
  induction xs with
  | nil => intro h; exact absurd rfl h
  | cons x xs ih =>
    intro _
    cases hxs : xs with
    | nil =>
      subst hxs
      simp [sortDescBy, insertDescBy]
    | cons y0 ys0 =>
      have hne : xs ≠ [] := by rw [hxs]; simp
      obtain ⟨hmem, hdom⟩ := ih hne
      rw [← hxs]
      obtain ⟨y, ys, hsort⟩ : ∃ y ys, sortDescBy r xs = y :: ys := by
        cases hs : sortDescBy r xs with
        | nil =>
          exfalso
          rw [hxs] at hs
          exact sortDescBy_ne_nil r y0 ys0 hs
        | cons a as => exact ⟨a, as, rfl⟩
      have hy : y ∈ xs := by
        have : y ∈ sortDescBy r xs := by rw [hsort]; simp
        exact (mem_sortDescBy r y xs).mp this
      have hydom : ∀ z ∈ xs, r z ≤ r y := by
        intro z hz
        have := hdom z hz
        rwa [hsort, List.headD_cons] at this
      show (insertDescBy r x (sortDescBy r xs)).headD [] ∈ x :: xs
        ∧ ∀ z ∈ x :: xs, r z ≤ r ((insertDescBy r x (sortDescBy r xs)).headD [])
      rw [hsort]
      simp only [insertDescBy]
      split_ifs with hlt
      · refine ⟨by simp, ?_⟩
        intro z hz
        simp only [List.headD_cons]
        rcases List.mem_cons.mp hz with h | h
        · subst h; exact le_refl _
        · exact le_trans (hydom z h) (le_of_lt hlt)
      · refine ⟨by simp [List.mem_cons, hy], ?_⟩
        intro z hz
        simp only [List.headD_cons]
        rcases List.mem_cons.mp hz with h | h
        · subst h; omega
        · exact hydom z h

/-- C5: over an athlete-year group's age-class values, the auto-resolver
resolves a set drawn purely from the senior ladder (+50/+60/+70) to the
highest senior rank present, resolves a set drawn purely from the youth
ladder (U21/U18/U15/U13) to the youngest-numbered (highest-rank) value
present, and leaves any set containing both a senior-ladder and a
youth-ladder value (e.g. {Adult, +50, U15}) unresolved. -/
theorem resolveAgeClass_ladders :
    (∀ l : List Str, 2 ≤ (uniqueFirst l).length →
      (∀ x ∈ l, x ∈ [("+50".data : Str), "+60".data, "+70".data]) →
      ∃ m, resolveAgeClass l = some m ∧ m ∈ l
        ∧ ∀ x ∈ l, rankOf SENIOR_RANK x ≤ rankOf SENIOR_RANK m)
    ∧ (∀ l : List Str, 2 ≤ (uniqueFirst l).length →
      (∀ x ∈ l, x ∈ [("U21".data : Str), "U18".data, "U15".data, "U13".data]) →
      ∃ m, resolveAgeClass l = some m ∧ m ∈ l
        ∧ ∀ x ∈ l, rankOf YOUTH_RANK x ≤ rankOf YOUTH_RANK m)
    ∧ (∀ l : List Str,
      (∃ x ∈ l, rankIn SENIOR_RANK x = true) →
      (∃ y ∈ l, rankIn YOUTH_RANK y = true) →
      resolveAgeClass l = none) := by
  refine ⟨fun l hlen hall => ?_, fun l hlen hall => ?_, fun l hsen hyou => ?_⟩
  · -- pure senior ladder
    have hsen : ∀ x ∈ uniqueFirst l, rankIn SENIOR_RANK x = true := by
      intro x hx
      have := hall x ((mem_uniqueFirst l x).mp hx)
      fin_cases this <;> decide
    have hnyou : ∀ x ∈ uniqueFirst l, rankIn YOUTH_RANK x = false := by
      intro x hx
      have := hall x ((mem_uniqueFirst l x).mp hx)
      fin_cases this <;> decide
    have hfil : (uniqueFirst l).filter (rankIn SENIOR_RANK) = uniqueFirst l :=
      List.filter_eq_self.mpr hsen
    have hfil2 : (uniqueFirst l).filter (rankIn YOUTH_RANK) = [] := by
      rw [List.filter_eq_nil_iff]
      intro x hx
      simp [hnyou x hx]
    unfold resolveAgeClass
    rw [if_neg (by omega), hfil, hfil2]
    rw [if_pos ⟨by omega, rfl⟩]
    have hne : uniqueFirst l ≠ [] := by
      intro h
      rw [h] at hlen
      simp at hlen
    obtain ⟨hm, hd⟩ := sortDescBy_headD (rankOf SENIOR_RANK) (uniqueFirst l) hne
    refine ⟨_, rfl, (mem_uniqueFirst l _).mp hm, fun x hx => ?_⟩
    exact hd x ((mem_uniqueFirst l x).mpr hx)
  · -- pure youth ladder
    have hyou : ∀ x ∈ uniqueFirst l, rankIn YOUTH_RANK x = true := by
      intro x hx
      have := hall x ((mem_uniqueFirst l x).mp hx)
      fin_cases this <;> decide
    have hnsen : ∀ x ∈ uniqueFirst l, rankIn SENIOR_RANK x = false := by
      intro x hx
      have := hall x ((mem_uniqueFirst l x).mp hx)
      fin_cases this <;> decide
    have hfil : (uniqueFirst l).filter (rankIn YOUTH_RANK) = uniqueFirst l :=
      List.filter_eq_self.mpr hyou
    have hfil2 : (uniqueFirst l).filter (rankIn SENIOR_RANK) = [] := by
      rw [List.filter_eq_nil_iff]
      intro x hx
      simp [hnsen x hx]
    unfold resolveAgeClass
    rw [if_neg (by omega), hfil, hfil2]
    rw [if_neg (by simp), if_pos ⟨by omega, rfl⟩]
    have hne : uniqueFirst l ≠ [] := by
      intro h
      rw [h] at hlen
      simp at hlen
    obtain ⟨hm, hd⟩ := sortDescBy_headD (rankOf YOUTH_RANK) (uniqueFirst l) hne
    refine ⟨_, rfl, (mem_uniqueFirst l _).mp hm, fun x hx => ?_⟩
    exact hd x ((mem_uniqueFirst l x).mpr hx)
  · -- mixed ladders stay unresolved
    obtain ⟨x, hxl, hxs⟩ := hsen
    obtain ⟨y, hyl, hyy⟩ := hyou
    have hxu : x ∈ (uniqueFirst l).filter (rankIn SENIOR_RANK) :=
      List.mem_filter.mpr ⟨(mem_uniqueFirst l x).mpr hxl, hxs⟩
    have hyu : y ∈ (uniqueFirst l).filter (rankIn YOUTH_RANK) :=
      List.mem_filter.mpr ⟨(mem_uniqueFirst l y).mpr hyl, hyy⟩
    have hxlen : 0 < ((uniqueFirst l).filter (rankIn SENIOR_RANK)).length :=
      List.length_pos.mpr (fun h => by rw [h] at hxu; simp at hxu)
    have hylen : 0 < ((uniqueFirst l).filter (rankIn YOUTH_RANK)).length :=
      List.length_pos.mpr (fun h => by rw [h] at hyu; simp at hyu)
    unfold resolveAgeClass
    dsimp only
    split_ifs with h1 h2 h3
    · rfl
    · omega
    · omega
    · rfl

/-- Witness for C5: the three scenario sets from the specification. -/
theorem resolveAgeClass_ladders_witness :
    (2 ≤ (uniqueFirst [("+50".data : Str), "+70".data]).length
      ∧ ∃ m, resolveAgeClass [("+50".data : Str), "+70".data] = some m
        ∧ m ∈ [("+50".data : Str), "+70".data]
        ∧ ∀ x ∈ [("+50".data : Str), "+70".data],
            rankOf SENIOR_RANK x ≤ rankOf SENIOR_RANK m)
    ∧ (∃ m, resolveAgeClass [("U21".data : Str), "U15".data] = some m
        ∧ m ∈ [("U21".data : Str), "U15".data]
        ∧ ∀ x ∈ [("U21".data : Str), "U15".data],
            rankOf YOUTH_RANK x ≤ rankOf YOUTH_RANK m)
    ∧ resolveAgeClass [("Adult".data : Str), "+50".data, "U15".data] = none
    ∧ resolveAgeClass [("+50".data : Str), "+70".data] = some ("+70".data)
    ∧ resolveAgeClass [("U21".data : Str), "U15".data] = some ("U15".data) :=
  ⟨⟨by decide,
    resolveAgeClass_ladders.1 [("+50".data : Str), "+70".data] (by decide) (by decide)⟩,
   resolveAgeClass_ladders.2.1 [("U21".data : Str), "U15".data] (by decide) (by decide),
   resolveAgeClass_ladders.2.2 [("Adult".data : Str), "+50".data, "U15".data]
     (by decide) (by decide),
   by decide, by decide⟩

-- ───────────────────────────────────────────────────────────────────────────
-- TICKET RESOLUTION (src/src/components/review/ReviewModule.tsx,
-- `handleImportFinalise`, `applyConsistencyFixes`)
-- ───────────────────────────────────────────────────────────────────────────

structure IssueTicket where
  id : Str
  field : Str
  originalValue : Str
  suggestedValue : Str
  confidence : Int
  method : Str
  recordIds : List Nat
  resolvedValue : Option Str
deriving DecidableEq, Repr

structure DecisionEntry where
  decision : Str
  value : Str
  fieldEdits : Option (List (Str × Str))
deriving DecidableEq, Repr

/-- `Map<number, Record<string, string>>` of per-record pending field
overwrites, in insertion order. -/
abbrev FixMap := List (Nat × List (Str × Str))

/-- `fixes.get(rid)![field] = v` (creating the per-record object first when
absent, as the source's `if (!fixes.has(rid)) fixes.set(rid, {})` does). -/
def setFixes (fx : FixMap) (rid : Nat) (field v : Str) : FixMap :=
  match fx with
  | [] => [(rid, [(field, v)])]
  | (r0, m0) :: rest =>
    if r0 = rid then (r0, setAssoc m0 field v) :: rest
    else (r0, m0) :: setFixes rest rid field v

def lookupFixes (fx : FixMap) (rid : Nat) : Option (List (Str × Str)) :=
  List.lookup rid fx

/-- JavaScript `Number(s)` restricted to the integer literals this code
path sees (scores are integers); `none` models NaN. -/
def jsNumber (s : Str) : Option Int :=
  let t := jsTrim s
  if t = [] then some 0
  else
    let core : Bool × Str :=
      match t with
      | '-' :: r => (true, r)
      | '+' :: r => (false, r)
      | _ => (false, t)
    if core.2 ≠ [] ∧ core.2.all Char.isDigit then
      some (if core.1 then -(digitsToNat core.2 : Int) else (digitsToNat core.2 : Int))
    else none

/-- `Number(val) || r.Result`: NaN and 0 fall back to the original. -/
def jsNumberOr (v : Str) (orig : Int) : Int :=
  match jsNumber v with
  | some n => if n = 0 then orig else n
  | none => orig

/-- `updated[field] = val` over the closed record shape; writes to keys
outside it do not affect the modeled fields. -/
def setRecordField (r : CompetitionRecord) (field v : Str) : CompetitionRecord :=
  if field = "Date".data then { r with date := v }
  else if field = "Athlete".data then { r with athlete := v }
  else if field = "Club".data then { r with club := v }
  else if field = "Bow Type".data then { r with bowType := v }
  else if field = "Age Class".data then { r with ageClass := v }
  else if field = "Gender".data then { r with gender := v }
  else if field = "Shooting Exercise".data then { r with shootingExercise := v }
  else if field = "Result".data then { r with result := jsNumberOr v r.result }
  else if field = "Competition".data then { r with competition := v }
  else r

/-- `record[field]` as text, for stating frame conditions. -/
def getRecordField (r : CompetitionRecord) (field : Str) : Str :=
  if field = "Date".data then r.date
  else if field = "Athlete".data then r.athlete
  else if field = "Club".data then r.club
  else if field = "Bow Type".data then r.bowType
  else if field = "Age Class".data then r.ageClass
  else if field = "Gender".data then r.gender
  else if field = "Shooting Exercise".data then r.shootingExercise
  else if field = "Result".data then intToStr r.result
  else if field = "Competition".data then r.competition
  else []

/-- Apply one record's pending field map in insertion order. -/
def applyFixList (r : CompetitionRecord) (m : List (Str × Str)) : CompetitionRecord :=
  m.foldl (fun rec fv => setRecordField rec fv.1 fv.2) r

def applyFixMap (fx : FixMap) (r : CompetitionRecord) : CompetitionRecord :=
  match lookupFixes fx r.id with
  | none => r
  | some m => applyFixList r m

/-- One approved ticket's writes: the ticket field's value to every
affected record, then any other-field hand edits to the representative
(first) record.  (With an empty affected set the source would write under
the key `undefined`, outside the modeled id space; modeled as a skip.) -/
def addTicketFixes (fx : FixMap) (t : IssueTicket) (d : DecisionEntry) : FixMap :=
  let fx1 := t.recordIds.foldl (fun a rid => setFixes a rid t.field d.value) fx
  match d.fieldEdits, t.recordIds with
  | some edits, repId :: _ =>
    edits.foldl (fun a fv => if fv.1 ≠ t.field then setFixes a repId fv.1 fv.2 else a) fx1
  | _, _ => fx1

def importFixStep (importTickets : List IssueTicket) (fixes : FixMap)
    (entry : Str × DecisionEntry) : FixMap :=
  if entry.2.decision ≠ "approve".data then fixes
  else
    match importTickets.find? (fun t => t.id == entry.1) with
    | none => fixes
    | some ticket => addTicketFixes fixes ticket entry.2

def importApprovedFixes (importTickets : List IssueTicket)
    (allDecisions : List (Str × DecisionEntry)) : FixMap :=
  allDecisions.foldl (importFixStep importTickets) []

def importRejectStep (importTickets : List IssueTicket) (ids : List Nat)
    (entry : Str × DecisionEntry) : List Nat :=
  if entry.2.decision ≠ "reject".data then ids
  else
    match importTickets.find? (fun t => t.id == entry.1) with
    | none => ids
    | some t => ids ++ t.recordIds

/-- The source collects rejected record ids in a `Set<number>`; only
membership is ever consulted, so it is modeled as an append-only list. -/
def importRejectedIds (importTickets : List IssueTicket)
    (allDecisions : List (Str × DecisionEntry)) : List Nat :=
  allDecisions.foldl (importRejectStep importTickets) []

/-- `handleImportFinalise`: apply approved fixes, and drop every flagged
record belonging to a rejected ticket. -/
def handleImportFinalise (records : List CompetitionRecord)
    (importTickets : List IssueTicket)
    (allDecisions : List (Str × DecisionEntry)) : List CompetitionRecord :=
  let approvedFixes := importApprovedFixes importTickets allDecisions
  let rejectedIds := importRejectedIds importTickets allDecisions
  (records.filter (fun r => !r.needsReview || !(rejectedIds.contains r.id))).map
    (applyFixMap approvedFixes)

def consistencyStep (decisions : List (Str × DecisionEntry)) (fx : FixMap)
    (t2 : IssueTicket) : FixMap :=
  match List.lookup t2.id decisions with
  | none => fx
  | some dec => if dec.decision ≠ "approve".data then fx else addTicketFixes fx t2 dec

def consistencyFixMap (tickets : List IssueTicket)
    (decisions : List (Str × DecisionEntry)) : FixMap :=
  tickets.foldl (consistencyStep decisions) []

/-- `applyConsistencyFixes`: approved tickets' fixes applied by mapping;
rejected and undecided tickets contribute nothing. -/
def applyConsistencyFixes (records : List CompetitionRecord)
    (tickets : List IssueTicket)
    (decisions : List (Str × DecisionEntry)) : List CompetitionRecord :=
  records.map (applyFixMap (consistencyFixMap tickets decisions))

-- Frame lemmas for the record-field writes.

theorem setRecordField_id (r : CompetitionRecord) (f v : Str) :
    (setRecordField r f v).id = r.id := by
  unfold setRecordField
  split_ifs <;> rfl

theorem applyFixList_id (m : List (Str × Str)) :
    ∀ r : CompetitionRecord, (applyFixList r m).id = r.id := by
  induction m with
  | nil => intro r; rfl
  | cons fv rest ih =>
    intro r
    show (applyFixList (setRecordField r fv.1 fv.2) rest).id = r.id
    rw [ih, setRecordField_id]

theorem applyFixMap_id (fx : FixMap) (r : CompetitionRecord) :
    (applyFixMap fx r).id = r.id := by
  unfold applyFixMap
  rcases lookupFixes fx r.id with _ | m
  · rfl
  · exact applyFixList_id m r

theorem setRecordField_date (r : CompetitionRecord) (f1 v : Str)
    (h : f1 ≠ "Date".data) : (setRecordField r f1 v).date = r.date := by
  unfold setRecordField
  split_ifs <;> first | rfl | exact absurd (by assumption) h

theorem setRecordField_athlete (r : CompetitionRecord) (f1 v : Str)
    (h : f1 ≠ "Athlete".data) : (setRecordField r f1 v).athlete = r.athlete := by
  unfold setRecordField
  split_ifs <;> first | rfl | exact absurd (by assumption) h

theorem setRecordField_club (r : CompetitionRecord) (f1 v : Str)
    (h : f1 ≠ "Club".data) : (setRecordField r f1 v).club = r.club := by
  unfold setRecordField
  split_ifs <;> first | rfl | exact absurd (by assumption) h

theorem setRecordField_bowType (r : CompetitionRecord) (f1 v : Str)
    (h : f1 ≠ "Bow Type".data) : (setRecordField r f1 v).bowType = r.bowType := by
  unfold setRecordField
  split_ifs <;> first | rfl | exact absurd (by assumption) h

theorem setRecordField_ageClass (r : CompetitionRecord) (f1 v : Str)
    (h : f1 ≠ "Age Class".data) : (setRecordField r f1 v).ageClass = r.ageClass := by
  unfold setRecordField
  split_ifs <;> first | rfl | exact absurd (by assumption) h

theorem setRecordField_gender (r : CompetitionRecord) (f1 v : Str)
    (h : f1 ≠ "Gender".data) : (setRecordField r f1 v).gender = r.gender := by
  unfold setRecordField
  split_ifs <;> first | rfl | exact absurd (by assumption) h

theorem setRecordField_shootingExercise (r : CompetitionRecord) (f1 v : Str)
    (h : f1 ≠ "Shooting Exercise".data) :
    (setRecordField r f1 v).shootingExercise = r.shootingExercise := by
  unfold setRecordField
  split_ifs <;> first | rfl | exact absurd (by assumption) h

theorem setRecordField_result (r : CompetitionRecord) (f1 v : Str)
    (h : f1 ≠ "Result".data) : (setRecordField r f1 v).result = r.result := by
  unfold setRecordField
  split_ifs <;> first | rfl | exact absurd (by assumption) h

theorem setRecordField_competition (r : CompetitionRecord) (f1 v : Str)
    (h : f1 ≠ "Competition".data) :
    (setRecordField r f1 v).competition = r.competition := by
  unfold setRecordField
  split_ifs <;> first | rfl | exact absurd (by assumption) h

set_option maxHeartbeats 2000000 in
theorem getRecordField_setRecordField_ne (r : CompetitionRecord) (f1 f v : Str)
    (h : f1 ≠ f) :
    getRecordField (setRecordField r f1 v) f = getRecordField r f := by
  unfold getRecordField
  split_ifs with h1 h2 h3 h4 h5 h6 h7 h8 h9
  · exact setRecordField_date r f1 v (fun he => h (he.trans h1.symm))
  · exact setRecordField_athlete r f1 v (fun he => h (he.trans h2.symm))
  · exact setRecordField_club r f1 v (fun he => h (he.trans h3.symm))
  · exact setRecordField_bowType r f1 v (fun he => h (he.trans h4.symm))
  · exact setRecordField_ageClass r f1 v (fun he => h (he.trans h5.symm))
  · exact setRecordField_gender r f1 v (fun he => h (he.trans h6.symm))
  · exact setRecordField_shootingExercise r f1 v (fun he => h (he.trans h7.symm))
  · exact congrArg intToStr (setRecordField_result r f1 v (fun he => h (he.trans h8.symm)))
  · exact setRecordField_competition r f1 v (fun he => h (he.trans h9.symm))
  · rfl

theorem lookup_cons_eq_none {β : Type} (k k0 : Str) (v0 : β) (rest : List (Str × β))
    (h : List.lookup k ((k0, v0) :: rest) = none) :
    k0 ≠ k ∧ List.lookup k rest = none := by
  rw [List.lookup] at h
  rcases hbeq : (k == k0) with _ | _
  · rw [hbeq] at h
    refine ⟨fun he => ?_, h⟩
    subst he
    simp at hbeq
  · rw [hbeq] at h
    simp at h

theorem applyFixList_getField (f : Str) :
    ∀ (m : List (Str × Str)) (r : CompetitionRecord), List.lookup f m = none →
      getRecordField (applyFixList r m) f = getRecordField r f := by
  intro m
  induction m with
  | nil => intro r _; rfl
  | cons fv rest ih =>
    intro r h
    obtain ⟨hne, hrest⟩ := lookup_cons_eq_none f fv.1 fv.2 rest (by
      rw [show ((fv.1, fv.2) : Str × Str) = fv from rfl]
      exact h)
    show getRecordField (applyFixList (setRecordField r fv.1 fv.2) rest) f = _
    rw [ih _ hrest, getRecordField_setRecordField_ne _ _ _ _ hne]

theorem lookup_setAssoc_ne :
    ∀ (m : List (Str × Str)) (k k2 v : Str), k ≠ k2 →
      List.lookup k2 (setAssoc m k v) = List.lookup k2 m := by
  intro m
  induction m with
  | nil =>
    intro k k2 v h
    have hb : (k2 == k) = false := beq_eq_false_iff_ne.mpr (fun he => h he.symm)
    show List.lookup k2 [(k, v)] = List.lookup k2 []
    simp [List.lookup, hb]
  | cons e rest ih =>
    intro k k2 v h
    obtain ⟨k0, v0⟩ := e
    show List.lookup k2 (if k0 = k then (k0, v) :: rest else (k0, v0) :: setAssoc rest k v)
      = List.lookup k2 ((k0, v0) :: rest)
    split_ifs with h0
    · have hb : (k2 == k0) = false :=
        beq_eq_false_iff_ne.mpr (fun he => h ((he.trans h0).symm))
      rw [List.lookup, List.lookup, hb]
    · rw [List.lookup, List.lookup]
      rcases hbeq : (k2 == k0) with _ | _
      · exact ih k k2 v h
      · rfl

theorem lookupFixes_setFixes_ne :
    ∀ (fx : FixMap) (rid rid2 : Nat) (f v : Str), rid ≠ rid2 →
      lookupFixes (setFixes fx rid f v) rid2 = lookupFixes fx rid2 := by
  intro fx
  induction fx with
  | nil =>
    intro rid rid2 f v h
    have hb : (rid2 == rid) = false := beq_eq_false_iff_ne.mpr (fun he => h he.symm)
    show List.lookup rid2 [(rid, [(f, v)])] = List.lookup rid2 []
    simp [List.lookup, hb]
  | cons e rest ih =>
    intro rid rid2 f v h
    obtain ⟨r0, m0⟩ := e
    show List.lookup rid2 (if r0 = rid then (r0, setAssoc m0 f v) :: rest
        else (r0, m0) :: setFixes rest rid f v)
      = List.lookup rid2 ((r0, m0) :: rest)
    split_ifs with h0
    · have hb : (rid2 == r0) = false :=
        beq_eq_false_iff_ne.mpr (fun he => h ((he.trans h0).symm))
      rw [List.lookup, List.lookup, hb]
    · rw [List.lookup, List.lookup]
      rcases hbeq : (rid2 == r0) with _ | _
      · exact ih rid rid2 f v h
      · rfl

theorem lookupFixes_setFixes_self :
    ∀ (fx : FixMap) (rid : Nat) (f v : Str),
      lookupFixes (setFixes fx rid f v) rid
        = some (setAssoc ((lookupFixes fx rid).getD []) f v) := by
  intro fx
  induction fx with
  | nil =>
    intro rid f v
    show List.lookup rid [(rid, [(f, v)])] = _
    rw [List.lookup, beq_self_eq_true]
    rfl
  | cons e rest ih =>
    intro rid f v
    obtain ⟨r0, m0⟩ := e
    show List.lookup rid (if r0 = rid then (r0, setAssoc m0 f v) :: rest
        else (r0, m0) :: setFixes rest rid f v)
      = some (setAssoc ((List.lookup rid ((r0, m0) :: rest)).getD []) f v)
    split_ifs with h0
    · subst h0
      rw [List.lookup, List.lookup, beq_self_eq_true]
      rfl
    · have hb : (rid == r0) = false := beq_eq_false_iff_ne.mpr (fun he => h0 he.symm)
      rw [List.lookup, List.lookup, hb]
      exact ih rid f v

/-- Invariant carried through the fix-building folds: none of the pending
per-record field maps of the ids in `ids` mentions the field `f`. -/
def FixesAvoid (fx : FixMap) (ids : List Nat) (f : Str) : Prop :=
  ∀ rid ∈ ids, ∀ m, lookupFixes fx rid = some m → List.lookup f m = none

theorem fixesAvoid_nil (ids : List Nat) (f : Str) : FixesAvoid [] ids f := by
  intro rid _ m hm
  simp [lookupFixes, List.lookup] at hm

theorem fixesAvoid_setFixes (fx : FixMap) (ids : List Nat) (f : Str)
    (rid : Nat) (f2 v : Str)
    (h : FixesAvoid fx ids f) (hcond : f2 ≠ f ∨ rid ∉ ids) :
    FixesAvoid (setFixes fx rid f2 v) ids f := by
  intro rid2 hrid2 m hm
  rcases Decidable.em (rid = rid2) with he | he
  · subst he
    rcases hcond with hf | hid
    · rw [lookupFixes_setFixes_self] at hm
      injection hm with hm2
      subst hm2
      rw [lookup_setAssoc_ne _ _ _ _ hf]
      rcases hl : lookupFixes fx rid with _ | m0
      · rfl
      · exact h rid hrid2 m0 hl
    · exact absurd hrid2 hid
  · rw [lookupFixes_setFixes_ne _ _ _ _ _ he] at hm
    exact h rid2 hrid2 m hm

theorem fixesAvoid_fold (f tf2 value : Str) (ids : List Nat) :
    ∀ (rids : List Nat) (fx : FixMap), FixesAvoid fx ids f →
      (tf2 ≠ f ∨ ∀ rid ∈ rids, rid ∉ ids) →
      FixesAvoid (rids.foldl (fun a rid => setFixes a rid tf2 value) fx) ids f := by
  intro rids
  induction rids with
  | nil => intro fx h _; exact h
  | cons rid rids ih =>
    intro fx h hc
    simp only [List.foldl_cons]
    apply ih
    · apply fixesAvoid_setFixes _ _ _ _ _ _ h
      rcases hc with hc | hc
      · exact Or.inl hc
      · exact Or.inr (hc rid (by simp))
    · rcases hc with hc | hc
      · exact Or.inl hc
      · exact Or.inr (fun x hx => hc x (by simp [hx]))

theorem fixesAvoid_addTicketFixes (f : Str) (ids : List Nat) (fx : FixMap)
    (t2 : IssueTicket) (d2 : DecisionEntry)
    (h : FixesAvoid fx ids f)
    (hedits : d2.fieldEdits = none)
    (hc : t2.field ≠ f ∨ ∀ rid ∈ t2.recordIds, rid ∉ ids) :
    FixesAvoid (addTicketFixes fx t2 d2) ids f := by
  unfold addTicketFixes
  rw [hedits]
  have hfold := fixesAvoid_fold f t2.field d2.value ids t2.recordIds fx h hc
  rcases hL : t2.recordIds with _ | ⟨rid0, rids⟩ <;> rw [hL] at hfold <;> exact hfold

/-- A key looked up successfully is an entry of the association list. -/
theorem mem_of_lookup_some {β : Type} [DecidableEq β] :
    ∀ (l : List (Str × β)) (k : Str) (v : β), List.lookup k l = some v → (k, v) ∈ l := by
  intro l
  induction l with
  | nil => intro k v h; simp [List.lookup] at h
  | cons e rest ih =>
    intro k v h
    obtain ⟨k0, v0⟩ := e
    rw [List.lookup] at h
    rcases hbeq : (k == k0) with _ | _
    · rw [hbeq] at h
      exact List.mem_cons_of_mem _ (ih k v h)
    · rw [hbeq] at h
      injection h with h2
      have : k = k0 := eq_of_beq hbeq
      subst this
      subst h2
      exact List.mem_cons_self _ _

theorem fixesAvoid_ticketFold (decisions : List (Str × DecisionEntry))
    (t : IssueTicket) (d : DecisionEntry)
    (hd : List.lookup t.id decisions = some d)
    (hrej : d.decision = "reject".data)
    (hedits : ∀ ent ∈ decisions, ent.2.fieldEdits = none) :
    ∀ (ts : List IssueTicket) (fx : FixMap),
      (∀ t2 ∈ ts, t2 ≠ t → t2.field = t.field → ∀ rid ∈ t.recordIds, rid ∉ t2.recordIds) →
      FixesAvoid fx t.recordIds t.field →
      FixesAvoid (ts.foldl (consistencyStep decisions) fx) t.recordIds t.field := by
  intro ts
  induction ts with
  | nil => intro fx _ h; exact h
  | cons t2 ts ih =>
    intro fx hdisj h
    simp only [List.foldl_cons]
    apply ih _ (fun x hx => hdisj x (by simp [hx]))
    unfold consistencyStep
    rcases hl : List.lookup t2.id decisions with _ | dec
    · exact h
    · dsimp only
      split_ifs with happ
      · exact h
      · push_neg at happ
        apply fixesAvoid_addTicketFixes _ _ _ _ _ h
          (hedits (t2.id, dec) (mem_of_lookup_some decisions t2.id dec hl))
        rcases Decidable.em (t2.field = t.field) with hf | hf
        · right
          have hne : t2 ≠ t := by
            intro he
            subst he
            rw [hd] at hl
            injection hl with he2
            rw [← he2] at happ
            rw [hrej] at happ
            exact absurd happ (by decide)
          intro rid hr2 hrt
          exact hdisj t2 (by simp) hne hf rid hrt hr2
        · exact Or.inl hf

-- Import-pass reject bookkeeping.

theorem mem_importRejectStep_mono (tk : List IssueTicket) (acc : List Nat)
    (entry : Str × DecisionEntry) (x : Nat) (h : x ∈ acc) :
    x ∈ importRejectStep tk acc entry := by
  unfold importRejectStep
  split_ifs
  · exact h
  · rcases hfind2 : tk.find? (fun t => t.id == entry.1) with _ | t
    · rw [hfind2]
      exact h
    · rw [hfind2]
      exact List.mem_append_left _ h

theorem mem_reject_foldl_mono (tk : List IssueTicket) :
    ∀ (entries : List (Str × DecisionEntry)) (acc : List Nat) (x : Nat), x ∈ acc →
      x ∈ entries.foldl (importRejectStep tk) acc := by
  intro entries
  induction entries with
  | nil => intro acc x h; exact h
  | cons e es ih =>
    intro acc x h
    simp only [List.foldl_cons]
    exact ih _ x (mem_importRejectStep_mono tk acc e x h)

theorem rejected_subset (tk : List IssueTicket) (t : IssueTicket) (d : DecisionEntry)
    (hfind : tk.find? (fun x => x.id == t.id) = some t)
    (hrej : d.decision = "reject".data) :
    ∀ (entries : List (Str × DecisionEntry)) (acc : List Nat),
      (t.id, d) ∈ entries →
      ∀ rid ∈ t.recordIds, rid ∈ entries.foldl (importRejectStep tk) acc := by
  intro entries
  induction entries with
  | nil => intro acc h; simp at h
  | cons e es ih =>
    intro acc hmem rid hr
    simp only [List.foldl_cons]
    rcases List.mem_cons.mp hmem with he | he
    · apply mem_reject_foldl_mono
      rw [← he]
      unfold importRejectStep
      rw [if_neg (by simp [hrej])]
      simp only
      rw [hfind]
      exact List.mem_append_right _ hr
    · exact ih _ he rid hr

/-- C6: rejecting an import-issue ticket removes every record in its
affected set from the active record set (so the final record count
strictly decreases when some active record is affected), while with a
consistency-pass reject the record count is always unchanged and — when
no decision carries hand edits and no other same-field ticket shares the
affected records — the targeted field of every affected record is left
untouched. -/
theorem ticketReject_semantics :
    (∀ (records : List CompetitionRecord) (tickets : List IssueTicket)
        (decisions : List (Str × DecisionEntry)) (t : IssueTicket) (d : DecisionEntry),
      (t.id, d) ∈ decisions →
      d.decision = "reject".data →
      tickets.find? (fun x => x.id == t.id) = some t →
      (∀ r ∈ records, r.id ∈ t.recordIds → r.needsReview = true) →
      (∀ r2 ∈ handleImportFinalise records tickets decisions, r2.id ∉ t.recordIds)
        ∧ ((∃ r ∈ records, r.id ∈ t.recordIds) →
            (handleImportFinalise records tickets decisions).length < records.length))
    ∧ (∀ (records : List CompetitionRecord) (tickets : List IssueTicket)
        (decisions : List (Str × DecisionEntry)),
      (applyConsistencyFixes records tickets decisions).length = records.length)
    ∧ (∀ (tickets : List IssueTicket) (decisions : List (Str × DecisionEntry))
        (t : IssueTicket) (d : DecisionEntry),
      t ∈ tickets →
      List.lookup t.id decisions = some d →
      d.decision = "reject".data →
      (∀ ent ∈ decisions, ent.2.fieldEdits = none) →
      (∀ t2 ∈ tickets, t2 ≠ t → t2.field = t.field →
        ∀ rid ∈ t.recordIds, rid ∉ t2.recordIds) →
      ∀ (r : CompetitionRecord), r.id ∈ t.recordIds →
        getRecordField (applyFixMap (consistencyFixMap tickets decisions) r) t.field
          = getRecordField r t.field) := by
  refine ⟨fun records tickets decisions t d hmem hrej hfind hnr => ⟨?_, ?_⟩,
    fun records tickets decisions => ?_,
    fun tickets decisions t d _ hd hrej hedits hdisj r hr => ?_⟩
  · intro r2 hr2 hid
    unfold handleImportFinalise at hr2
    dsimp only at hr2
    obtain ⟨r, hrf, hmap⟩ := List.mem_map.mp hr2
    have hidr : r.id = r2.id := by rw [← hmap, applyFixMap_id]
    obtain ⟨hrrec, hcond⟩ := List.mem_filter.mp hrf
    have hNR : r.needsReview = true := hnr r hrrec (by rw [hidr]; exact hid)
    have hrid : r.id ∈ importRejectedIds tickets decisions := by
      unfold importRejectedIds
      exact rejected_subset tickets t d hfind hrej decisions [] hmem r.id
        (by rw [hidr]; exact hid)
    have hcontain : (importRejectedIds tickets decisions).contains r.id = true :=
      List.elem_iff.mpr hrid
    rw [hNR, hcontain] at hcond
    simp at hcond
  · intro hex
    obtain ⟨r, hrl, hrid⟩ := hex
    unfold handleImportFinalise
    dsimp only
    rw [List.length_map]
    apply List.length_filter_lt_length_iff_exists.mpr
    refine ⟨r, hrl, ?_⟩
    have hNR : r.needsReview = true := hnr r hrl hrid
    have hcontain : (importRejectedIds tickets decisions).contains r.id = true :=
      List.elem_iff.mpr (by
        unfold importRejectedIds
        exact rejected_subset tickets t d hfind hrej decisions [] hmem r.id hrid)
    rw [hNR, hcontain]
    simp
  · unfold applyConsistencyFixes
    exact List.length_map _ _
  · have havoid : FixesAvoid (consistencyFixMap tickets decisions) t.recordIds t.field := by
      unfold consistencyFixMap
      exact fixesAvoid_ticketFold decisions t d hd hrej hedits tickets [] hdisj
        (fixesAvoid_nil _ _)
    unfold applyFixMap
    rcases hl : lookupFixes (consistencyFixMap tickets decisions) r.id with _ | m
    · rfl
    · exact applyFixList_getField t.field m r (havoid r.id hr m hl)

-- Concrete data for the C6 witness.

def recAlpha : CompetitionRecord :=
  { id := 1, date := [], athlete := "Mari".data, club := "TLVK".data,
    bowType := "Recurve".data, ageClass := "Adult".data, gender := "Men".data,
    shootingExercise := "18m".data, result := 500, competition := [],
    sourceFile := [], corrections := [], needsReview := true, confidence := 50,
    originalData := [] }

def recBeta : CompetitionRecord :=
  { id := 2, date := [], athlete := "Jaan".data, club := "SAG".data,
    bowType := "Recurve".data, ageClass := "Adult".data, gender := "Men".data,
    shootingExercise := "18m".data, result := 510, competition := [],
    sourceFile := [], corrections := [], needsReview := false, confidence := 100,
    originalData := [] }

def clubTicket : IssueTicket :=
  { id := "Club::X".data, field := "Club".data, originalValue := "X".data,
    suggestedValue := "TLVK".data, confidence := 50, method := "fuzzy".data,
    recordIds := [1], resolvedValue := none }

def genderTicket : IssueTicket :=
  { id := "consistency::Gender::mari".data, field := "Gender".data,
    originalValue := [], suggestedValue := "Women".data, confidence := 60,
    method := "consistency".data, recordIds := [1], resolvedValue := none }

def rejectDecision : DecisionEntry :=
  { decision := "reject".data, value := [], fieldEdits := none }

/-- Witness for C6: a rejected import ticket shrinks a two-record set, and
a rejected consistency ticket preserves the count and the targeted Gender
field. -/
theorem ticketReject_semantics_witness :
    (handleImportFinalise [recAlpha, recBeta] [clubTicket]
        [(clubTicket.id, rejectDecision)]).length < 2
    ∧ (applyConsistencyFixes [recAlpha, recBeta] [genderTicket]
        [(genderTicket.id, rejectDecision)]).length = 2
    ∧ getRecordField (applyFixMap (consistencyFixMap [genderTicket]
          [(genderTicket.id, rejectDecision)]) recAlpha) ("Gender".data)
        = getRecordField recAlpha ("Gender".data) := by
  refine ⟨?_, ?_, ?_⟩
  · have h := (ticketReject_semantics.1 [recAlpha, recBeta] [clubTicket]
      [(clubTicket.id, rejectDecision)] clubTicket rejectDecision
      (by decide) (by decide) (by decide) (by decide)).2 ⟨recAlpha, by decide, by decide⟩
    simpa using h
  · have h := ticketReject_semantics.2.1 [recAlpha, recBeta] [genderTicket]
      [(genderTicket.id, rejectDecision)]
    simpa using h
  · exact ticketReject_semantics.2.2 [genderTicket] [(genderTicket.id, rejectDecision)]
      genderTicket rejectDecision (by decide) (by decide) (by decide) (by decide)
      (by decide) recAlpha (by decide)

/-- Witness for C10: a duplicate-code add and a built-in remove over the
shipped vocabulary, both refused with no mutation, no save and no
notification. -/
theorem clubStore_failure_no_mutation_witness :
    (addClub ESTONIAN_CLUBS ("TLVK".data) ("Duplicate".data)).result = false
    ∧ ((addClub ESTONIAN_CLUBS ("TLVK".data) ("Duplicate".data)).clubs = ESTONIAN_CLUBS
      ∧ (addClub ESTONIAN_CLUBS ("TLVK".data) ("Duplicate".data)).saved = none
      ∧ (addClub ESTONIAN_CLUBS ("TLVK".data) ("Duplicate".data)).notified = false)
    ∧ (removeClub ESTONIAN_CLUBS ("SAG".data)).result = false
    ∧ ((removeClub ESTONIAN_CLUBS ("SAG".data)).clubs = ESTONIAN_CLUBS
      ∧ (removeClub ESTONIAN_CLUBS ("SAG".data)).saved = none
      ∧ (removeClub ESTONIAN_CLUBS ("SAG".data)).notified = false) :=
  ⟨by decide,
   clubStore_failure_no_mutation.1 ESTONIAN_CLUBS ("TLVK".data) ("Duplicate".data) (by decide),
   by decide,
   clubStore_failure_no_mutation.2.2.1 ESTONIAN_CLUBS ("SAG".data) (by decide)⟩

/-- C8: the Levenshtein edit-distance primitive is symmetric
(`levenshtein a b = levenshtein b a` for all strings), returns 0 whenever
the two arguments are identical, and compares case-insensitively: two
strings that agree up to case are at distance 0. -/
theorem levenshtein_symm_identity :
    (∀ a b : Str, levenshtein a b = levenshtein b a)
    ∧ (∀ a : Str, levenshtein a a = 0)
    ∧ (∀ a b : Str, toLowerStr a = toLowerStr b → levenshtein a b = 0) := by
  refine ⟨fun a b => ?_, fun a => ?_, fun a b h => ?_⟩
  · rw [levenshtein_eq_levP, levenshtein_eq_levP]
    exact levP_comm _ _
  · rw [levenshtein_eq_levP]
    exact levP_self _
  · rw [levenshtein_eq_levP, h]
    exact levP_self _

/-- Witness for C8: the case-insensitivity clause applied at "ABC" vs
"abc". -/
theorem levenshtein_symm_identity_witness :
    toLowerStr ("ABC".data) = toLowerStr ("abc".data)
    ∧ levenshtein ("ABC".data) ("abc".data) = 0 :=
  ⟨by decide, levenshtein_symm_identity.2.2 ("ABC".data) ("abc".data) (by decide)⟩

end Archery
